import Mathlib

/-!
Verification of the OSCON 2012 / Synacor-style VM interpreter (src/src/main.rs).

The interpreter is shallowly embedded:
* `u16` words are modelled as `Nat`; where the Rust code's `u16` arithmetic can
  wrap (release-mode semantics), the embedding applies `% 65536` explicitly.
* The Rust `HashMap<u16, u16>` memory is a partial map `Nat → Option Nat`.
* The `[u16; 8]` register file is a total function `Nat → Nat`; the code only
  ever indexes it with `register_idx` results, which lie in `0..7`.
* Every Rust `panic!` / `.unwrap()` / `.expect(...)` site becomes a `VMError`
  returned through `Except` (an abort, distinct from a normal halt).
* `out` and `in` side effects are made explicit: `execute_operation` consumes a
  list of pending input bytes and returns the list of emitted output values
  (the `u8` arguments the Rust code passes to `print!`).
-/

/-- The decoded operation type, mirroring `enum Operation` in main.rs. -/
inductive Operation where
  | halt
  | set (a b : Nat)
  | push (a : Nat)
  | pop (a : Nat)
  | eq (a b c : Nat)
  | gt (a b c : Nat)
  | jmp (a : Nat)
  | jt (a b : Nat)
  | jf (a b : Nat)
  | add (a b c : Nat)
  | mult (a b c : Nat)
  | mod (a b c : Nat)
  | and (a b c : Nat)
  | or (a b c : Nat)
  | not (a b : Nat)
  | rmem (a b : Nat)
  | wmem (a b : Nat)
  | call (a : Nat)
  | ret
  | out (a : Nat)
  | inp (a : Nat)
  | noop
  deriving DecidableEq, Repr

/-- Abort causes: one constructor per distinct `panic!`/`unwrap`/`expect` site
reachable during execution in main.rs. All of them are fatal terminations,
distinct from the normal halted state. -/
inductive VMError where
  | invalidOpcode
  | missingMemory
  | expectRegister
  | stackUnderflow
  | modByZero
  | outOfByteRange
  | inputExhausted
  deriving DecidableEq, Repr

/-- The machine state, mirroring `struct VM` in main.rs (fields in source order). -/
structure VM where
  instruction_ptr : Nat
  mem : Nat → Option Nat
  registers : Nat → Nat
  stack : List Nat
  halted : Bool

/-- `VM::default()`: instruction pointer 0, empty memory map, all-zero
registers, empty stack, not halted. -/
def VM.default : VM :=
  { instruction_ptr := 0
    mem := fun _ => none
    registers := fun _ => 0
    stack := []
    halted := false }

/-- `Operation::num_arguments` (main.rs lines 60-68): operand count per opcode,
`none` for the `panic!("Invalid opcode.")` arm. -/
def num_arguments (opcode : Nat) : Option Nat :=
  if opcode = 0 ∨ opcode = 18 ∨ opcode = 21 then some 0
  else if opcode = 2 ∨ opcode = 3 ∨ opcode = 6 ∨ opcode = 17 ∨ opcode = 19 ∨ opcode = 20 then
    some 1
  else if opcode = 1 ∨ opcode = 7 ∨ opcode = 8 ∨ opcode = 14 ∨ opcode = 15 ∨ opcode = 16 then
    some 2
  else if opcode = 4 ∨ opcode = 5 ∨ opcode = 9 ∨ opcode = 10 ∨ opcode = 11 ∨ opcode = 12 ∨
      opcode = 13 then
    some 3
  else none

/-- `Operation::new` (main.rs lines 32-58). The Rust code indexes `args[i]`;
the sole caller (`parse_next_operation`) always supplies exactly
`num_arguments opcode` entries, so `List.getD _ _ 0` never hits its default. -/
def Operation.new (opcode : Nat) (args : List Nat) : Option Operation :=
  match opcode with
  | 0 => some .halt
  | 1 => some (.set (args.getD 0 0) (args.getD 1 0))
  | 2 => some (.push (args.getD 0 0))
  | 3 => some (.pop (args.getD 0 0))
  | 4 => some (.eq (args.getD 0 0) (args.getD 1 0) (args.getD 2 0))
  | 5 => some (.gt (args.getD 0 0) (args.getD 1 0) (args.getD 2 0))
  | 6 => some (.jmp (args.getD 0 0))
  | 7 => some (.jt (args.getD 0 0) (args.getD 1 0))
  | 8 => some (.jf (args.getD 0 0) (args.getD 1 0))
  | 9 => some (.add (args.getD 0 0) (args.getD 1 0) (args.getD 2 0))
  | 10 => some (.mult (args.getD 0 0) (args.getD 1 0) (args.getD 2 0))
  | 11 => some (.mod (args.getD 0 0) (args.getD 1 0) (args.getD 2 0))
  | 12 => some (.and (args.getD 0 0) (args.getD 1 0) (args.getD 2 0))
  | 13 => some (.or (args.getD 0 0) (args.getD 1 0) (args.getD 2 0))
  | 14 => some (.not (args.getD 0 0) (args.getD 1 0))
  | 15 => some (.rmem (args.getD 0 0) (args.getD 1 0))
  | 16 => some (.wmem (args.getD 0 0) (args.getD 1 0))
  | 17 => some (.call (args.getD 0 0))
  | 18 => some .ret
  | 19 => some (.out (args.getD 0 0))
  | 20 => some (.inp (args.getD 0 0))
  | 21 => some .noop
  | _ => none

/-- `VM::register_idx` (main.rs lines 199-204): `none` unless the word is a
register reference in 32768..32775, in which case the index is `value % 32768`. -/
def register_idx (value : Nat) : Option Nat :=
  if value < 32768 ∨ value > 32775 then none
  else some (value % 32768)

/-- `VM::get_value` (main.rs lines 211-217): a register reference resolves to
the register content; every other word (literals 0..32767 and also words
≥ 32776) is returned unchanged. -/
def VM.get_value (vm : VM) (value : Nat) : Nat :=
  match register_idx value with
  | some r => vm.registers r
  | none => value

/-- `VM::set_register` (main.rs lines 206-209): `register_idx(address).unwrap()`
aborts when the address is not a register reference. -/
def VM.set_register (vm : VM) (address value : Nat) : Except VMError VM :=
  match register_idx address with
  | some r =>
    .ok { vm with registers := fun j => if j = r then value else vm.registers j }
  | none => .error .expectRegister

/-- The argument-reading loop inside `VM::parse_next_operation` (main.rs
line 110-112): reads `count` consecutive words from
`instruction_ptr + 1 + i` (u16 addition, hence `% 65536`), aborting at the
`mem.get(..).unwrap()` of any unmapped address. -/
def read_args (vm : VM) : Nat → Nat → Except VMError (List Nat)
  | _, 0 => .ok []
  | i, count + 1 =>
    match vm.mem ((vm.instruction_ptr + 1 + i) % 65536) with
    | none => .error .missingMemory
    | some w =>
      match read_args vm (i + 1) count with
      | .error e => .error e
      | .ok rest => .ok (w :: rest)

/-- `VM::parse_next_operation` (main.rs lines 106-114): fetch the opcode word
at `instruction_ptr` (`unwrap` aborts on an unmapped address), look up its
argument count (`panic!` aborts on an invalid opcode), read the arguments,
and build the `Operation`. It takes `&self`: it reads only `instruction_ptr`
and `mem` and mutates nothing. -/
def parse_next_operation (vm : VM) : Except VMError Operation :=
  match vm.mem vm.instruction_ptr with
  | none => .error .missingMemory
  | some opcode =>
    match num_arguments opcode with
    | none => .error .invalidOpcode
    | some n =>
      match read_args vm 0 n with
      | .error e => .error e
      | .ok args =>
        match Operation.new opcode args with
        | none => .error .invalidOpcode
        | some op => .ok op

/-- The first `match` of `VM::execute_operation` (main.rs lines 117-189): the
per-opcode state mutation and I/O, before the instruction-pointer advance.
Returns the new state, the remaining input bytes and the emitted output
values. u16 additions that can wrap are taken `% 65536` (release-mode
wrapping); `mod` with divisor 0 is the Rust remainder panic; `out` of a
value over 255 is the `try_into::<u8>().unwrap()` panic; `inp` on an
exhausted input is the `read_exact(..).unwrap()` failure. -/
def execute_arm (vm : VM) (op : Operation) (input : List Nat) :
    Except VMError (VM × List Nat × List Nat) :=
  match op with
  | .halt => .ok ({ vm with halted := true }, input, [])
  | .set register value =>
    match register_idx register with
    | none => .error .expectRegister
    | some r =>
      .ok ({ vm with
              registers := fun j => if j = r then vm.get_value value else vm.registers j },
           input, [])
  | .push value => .ok ({ vm with stack := vm.get_value value :: vm.stack }, input, [])
  | .pop address =>
    match vm.stack with
    | [] => .error .stackUnderflow
    | v :: rest =>
      match VM.set_register { vm with stack := rest } address v with
      | .error e => .error e
      | .ok vm' => .ok (vm', input, [])
  | .eq address b c =>
    match vm.set_register address (if vm.get_value b = vm.get_value c then 1 else 0) with
    | .error e => .error e
    | .ok vm' => .ok (vm', input, [])
  | .gt address b c =>
    match vm.set_register address (if vm.get_value b > vm.get_value c then 1 else 0) with
    | .error e => .error e
    | .ok vm' => .ok (vm', input, [])
  | .jmp address => .ok ({ vm with instruction_ptr := vm.get_value address }, input, [])
  | .jt value address =>
    if vm.get_value value ≠ 0 then
      .ok ({ vm with instruction_ptr := vm.get_value address }, input, [])
    else
      .ok ({ vm with instruction_ptr := (vm.instruction_ptr + 3) % 65536 }, input, [])
  | .jf value address =>
    if vm.get_value value = 0 then
      .ok ({ vm with instruction_ptr := vm.get_value address }, input, [])
    else
      .ok ({ vm with instruction_ptr := (vm.instruction_ptr + 3) % 65536 }, input, [])
  | .add address b c =>
    match vm.set_register address (((vm.get_value b + vm.get_value c) % 65536) % 32768) with
    | .error e => .error e
    | .ok vm' => .ok (vm', input, [])
  | .mult address b c =>
    match vm.set_register address ((vm.get_value b * vm.get_value c) % 32768) with
    | .error e => .error e
    | .ok vm' => .ok (vm', input, [])
  | .mod address b c =>
    if vm.get_value c = 0 then .error .modByZero
    else
      match vm.set_register address (vm.get_value b % vm.get_value c) with
      | .error e => .error e
      | .ok vm' => .ok (vm', input, [])
  | .and address b c =>
    match vm.set_register address (vm.get_value b &&& vm.get_value c) with
    | .error e => .error e
    | .ok vm' => .ok (vm', input, [])
  | .or address b c =>
    match vm.set_register address (vm.get_value b ||| vm.get_value c) with
    | .error e => .error e
    | .ok vm' => .ok (vm', input, [])
  | .not address b =>
    match vm.set_register address ((vm.get_value b ^^^ 0xffff) &&& 0x7fff) with
    | .error e => .error e
    | .ok vm' => .ok (vm', input, [])
  | .rmem write_address read_address =>
    match vm.mem (vm.get_value read_address) with
    | none => .error .missingMemory
    | some w =>
      match vm.set_register write_address w with
      | .error e => .error e
      | .ok vm' => .ok (vm', input, [])
  | .wmem write_address read_address =>
    .ok ({ vm with
            mem := fun k =>
              if k = vm.get_value write_address then some (vm.get_value read_address)
              else vm.mem k },
         input, [])
  | .call address =>
    .ok ({ vm with
            stack := ((vm.instruction_ptr + 2) % 65536) :: vm.stack
            instruction_ptr := vm.get_value address },
         input, [])
  | .ret =>
    match vm.stack with
    | [] => .ok ({ vm with halted := true }, input, [])
    | v :: rest => .ok ({ vm with stack := rest, instruction_ptr := v }, input, [])
  | .out value =>
    if vm.get_value value ≤ 255 then .ok (vm, input, [vm.get_value value])
    else .error .outOfByteRange
  | .inp address =>
    match input with
    | [] => .error .inputExhausted
    | b :: rest =>
      match vm.set_register address (b % 256) with
      | .error e => .error e
      | .ok vm' => .ok (vm', rest, [])
  | .noop => .ok (vm, input, [])

/-- The second `match` of `VM::execute_operation` (main.rs lines 190-196):
the instruction-pointer advance, by the operation's total width in words
(u16 addition, hence `% 65536`); control-flow operations advance nothing. -/
def advance (vm : VM) (op : Operation) : VM :=
  match op with
  | .halt | .jmp _ | .jt _ _ | .jf _ _ | .call _ | .ret => vm
  | .noop => { vm with instruction_ptr := (vm.instruction_ptr + 1) % 65536 }
  | .push _ | .pop _ | .out _ | .inp _ =>
    { vm with instruction_ptr := (vm.instruction_ptr + 2) % 65536 }
  | .set _ _ | .not _ _ | .rmem _ _ | .wmem _ _ =>
    { vm with instruction_ptr := (vm.instruction_ptr + 3) % 65536 }
  | .eq _ _ _ | .gt _ _ _ | .add _ _ _ | .mult _ _ _ | .mod _ _ _ | .and _ _ _ | .or _ _ _ =>
    { vm with instruction_ptr := (vm.instruction_ptr + 4) % 65536 }

/-- `VM::execute_operation` (main.rs lines 116-197): the per-opcode arm
followed, when the arm did not abort, by the instruction-pointer advance. -/
def execute_operation (vm : VM) (op : Operation) (input : List Nat) :
    Except VMError (VM × List Nat × List Nat) :=
  match execute_arm vm op input with
  | .error e => .error e
  | .ok (vm', input', output) => .ok (advance vm' op, input', output)

/-- `VM::execute_next_operation` (main.rs lines 101-104): decode at the current
instruction pointer, then execute. -/
def execute_next_operation (vm : VM) (input : List Nat) :
    Except VMError (VM × List Nat × List Nat) :=
  match parse_next_operation vm with
  | .error e => .error e
  | .ok op => execute_operation vm op input

/-- The property that every raw operand word of an operation is in the valid
literal/register-reference range 0..32775. -/
def operands_valid : Operation → Prop
  | .halt | .ret | .noop => True
  | .push a | .pop a | .jmp a | .call a | .out a | .inp a => a ≤ 32775
  | .set a b | .jt a b | .jf a b | .not a b | .rmem a b | .wmem a b => a ≤ 32775 ∧ b ≤ 32775
  | .eq a b c | .gt a b c | .add a b c | .mult a b c | .mod a b c | .and a b c | .or a b c =>
    a ≤ 32775 ∧ b ≤ 32775 ∧ c ≤ 32775

/-- A three-word program image encoding `set r0, 40000`: opcode 1 with raw
operands 32768 (register 0) and 40000 (a word above the valid operand range,
which `get_value` passes through unchanged). -/
def set_out_of_range_mem : Nat → Option Nat := fun k =>
  if k = 0 then some 1 else if k = 1 then some 32768 else if k = 2 then some 40000 else none

/-- A one-word program image holding just the `noop` opcode (21) at address 0. -/
def noop_mem : Nat → Option Nat := fun k => if k = 0 then some 21 else none

/-! ## Helper lemmas about operand resolution -/

theorem register_idx_literal (v : Nat) (h : v < 32768) : register_idx v = none := by
  unfold register_idx
  rw [if_pos (Or.inl h)]

theorem register_idx_high (v : Nat) (h : 32775 < v) : register_idx v = none := by
  unfold register_idx
  rw [if_pos (Or.inr h)]

theorem register_idx_ref (v : Nat) (h1 : 32768 ≤ v) (h2 : v ≤ 32775) :
    register_idx v = some (v - 32768) := by
  unfold register_idx
  rw [if_neg (by omega)]
  have : v % 32768 = v - 32768 := by omega
  rw [this]

theorem get_value_literal (vm : VM) (v : Nat) (h : v < 32768) : vm.get_value v = v := by
  unfold VM.get_value
  rw [register_idx_literal v h]

theorem get_value_high (vm : VM) (v : Nat) (h : 32775 < v) : vm.get_value v = v := by
  unfold VM.get_value
  rw [register_idx_high v h]

theorem get_value_ref (vm : VM) (v : Nat) (h1 : 32768 ≤ v) (h2 : v ≤ 32775) :
    vm.get_value v = vm.registers (v - 32768) := by
  unfold VM.get_value
  rw [register_idx_ref v h1 h2]

theorem get_value_le (vm : VM) (v : Nat) (hreg : ∀ i, vm.registers i ≤ 32767)
    (h : v ≤ 32775) : vm.get_value v ≤ 32767 := by
  by_cases hv : v < 32768
  · rw [get_value_literal vm v hv]; omega
  · rw [get_value_ref vm v (by omega) h]; exact hreg _

/-! ## Helper lemmas about the 15-bit complement used by `not` -/

theorem not15_eq_xor (a : Nat) (ha : a < 32768) :
    (a ^^^ 65535) &&& 32767 = a ^^^ 32767 := by
  apply Nat.eq_of_testBit_eq
  intro i
  have h1 : (65535 : Nat) = 2 ^ 16 - 1 := by norm_num
  have h2 : (32767 : Nat) = 2 ^ 15 - 1 := by norm_num
  rw [Nat.testBit_and, Nat.testBit_xor, Nat.testBit_xor, h1, h2,
    Nat.testBit_two_pow_sub_one, Nat.testBit_two_pow_sub_one]
  by_cases hi : i < 15
  · have hi16 : i < 16 := by omega
    simp [hi, hi16]
  · have hple : (32768 : Nat) ≤ 2 ^ i := by
      calc (32768 : Nat) = 2 ^ 15 := by norm_num
      _ ≤ 2 ^ i := Nat.pow_le_pow_right (by norm_num) (by omega)
    have hfa : a.testBit i = false := Nat.testBit_lt_two_pow (by omega)
    simp [hi, hfa]

theorem not15_lt (a : Nat) : (a ^^^ 65535) &&& 32767 < 32768 := by
  have h : (a ^^^ 65535) &&& 32767 ≤ 32767 := Nat.and_le_right
  omega

theorem not15_invol (a : Nat) (ha : a < 32768) :
    ((((a ^^^ 65535) &&& 32767) ^^^ 65535) &&& 32767) = a := by
  rw [not15_eq_xor a ha]
  have hlt : a ^^^ 32767 < 32768 := by
    have : a ^^^ 32767 < 2 ^ 15 := Nat.bitwise_lt (by omega) (by norm_num)
    omega
  rw [not15_eq_xor _ hlt, Nat.xor_assoc, Nat.xor_self, Nat.xor_zero]

/-! ## C1: value-operand resolution -/

/-- C1 (counterexample): the claim states that value resolution fails fatally
(aborts the run) whenever the raw operand word is ≥ 32776. In the code,
`register_idx` returns `None` for such words and `get_value` then returns the
raw word unchanged, so no abort occurs: resolving the word 32776 yields 32776,
and executing `push 32776` succeeds normally. -/
theorem get_value_invalid_word_no_abort :
    VM.default.get_value 32776 = 32776 ∧
    execute_operation VM.default (.push 32776) [] =
      .ok ({ VM.default with stack := [32776], instruction_ptr := 2 }, [], []) :=
  ⟨rfl, rfl⟩

/-- C1 (amended): for every value-position operand, `get_value` returns the
current content of the named register when the raw word is in 32768..32775,
and returns the raw word unchanged both when it is in 0..32767 and when it is
≥ 32776; no raw word is rejected (resolution is total and never aborts). -/
theorem get_value_characterization (vm : VM) (v : Nat) :
    (32768 ≤ v → v ≤ 32775 → vm.get_value v = vm.registers (v - 32768)) ∧
    (v < 32768 ∨ 32775 < v → vm.get_value v = v) := by
  refine ⟨fun h1 h2 => get_value_ref vm v h1 h2, fun h => ?_⟩
  rcases h with h | h
  · exact get_value_literal vm v h
  · exact get_value_high vm v h

/-- Witness for C1: resolving register reference 32770 reads register 2, and
resolving the out-of-range word 40000 returns 40000. -/
theorem get_value_characterization_witness :
    VM.default.get_value 32770 = VM.default.registers 2 ∧
    VM.default.get_value 40000 = 40000 := by
  constructor
  · have h := (get_value_characterization VM.default 32770).1 (by norm_num) (by norm_num)
    simpa using h
  · exact (get_value_characterization VM.default 40000).2 (by norm_num)

/-! ## C2: `out` semantics -/

/-- C2 (counterexample): the claim states that `out` emits the resolved value
truncated to its low 8 bits and never aborts on values over 255. In the code,
`out` performs `try_into::<u8>().unwrap()`, which panics for any value over
255: executing `out 256` aborts instead of emitting byte 0. -/
theorem out_large_value_aborts :
    execute_operation VM.default (.out 256) [] = .error .outOfByteRange := rfl

/-- C2 (amended): `out` emits exactly one value, the resolved operand itself,
when that value is at most 255, and aborts the run fatally when the resolved
value exceeds 255; no truncation takes place. -/
theorem out_byte_semantics (vm : VM) (inp : List Nat) (v : Nat) :
    (vm.get_value v ≤ 255 → execute_operation vm (.out v) inp =
      .ok ({ vm with instruction_ptr := (vm.instruction_ptr + 2) % 65536 },
           inp, [vm.get_value v])) ∧
    (255 < vm.get_value v → execute_operation vm (.out v) inp = .error .outOfByteRange) := by
  constructor
  · intro h
    simp only [execute_operation, execute_arm]
    rw [if_pos h]
    rfl
  · intro h
    have h' : ¬ vm.get_value v ≤ 255 := by omega
    simp only [execute_operation, execute_arm]
    rw [if_neg h']

/-- Witness for C2: `out 65` emits the single value 65, and `out 300`
(a literal above the byte range) aborts. -/
theorem out_byte_semantics_witness :
    execute_operation VM.default (.out 65) [] =
      .ok ({ VM.default with instruction_ptr := 2 }, [], [65]) ∧
    execute_operation VM.default (.out 300) [] = .error .outOfByteRange := by
  constructor
  · exact (out_byte_semantics VM.default [] 65).1 (by decide)
  · exact (out_byte_semantics VM.default [] 300).2 (by decide)

/-! ## C3: register range invariant -/

/-- C3 (counterexample): the claim states that registers never hold a value
≥ 32768. Executing the single instruction `set r0, 40000` from the initial
state stores 40000 in register 0, because `set_register` stores the resolved
value unmasked and `get_value` does not reject words ≥ 32776. -/
theorem set_stores_out_of_range_literal :
    execute_next_operation { VM.default with mem := set_out_of_range_mem } [] =
      .ok ({ VM.default with
              mem := set_out_of_range_mem
              registers := fun j => if j = 0 then 40000 else VM.default.registers j
              instruction_ptr := 3 }, [], []) ∧
    ¬ (40000 : Nat) ≤ 32767 :=
  ⟨rfl, by decide⟩

theorem set_register_range (vm : VM) (a v : Nat) (vm' : VM)
    (hreg : ∀ i, vm.registers i ≤ 32767) (hv : v ≤ 32767)
    (h : vm.set_register a v = .ok vm') : ∀ i, vm'.registers i ≤ 32767 := by
  unfold VM.set_register at h
  cases hcase : register_idx a with
  | none => rw [hcase] at h; cases h
  | some r =>
    rw [hcase] at h
    cases h
    intro i
    by_cases hi : i = r
    · simp [hi, hv]
    · simp [hi, hreg i]

theorem advance_registers (vm : VM) (op : Operation) :
    (advance vm op).registers = vm.registers := by
  cases op <;> rfl

theorem advance_mem (vm : VM) (op : Operation) : (advance vm op).mem = vm.mem := by
  cases op <;> rfl

theorem execute_arm_registers_range (vm : VM) (op : Operation) (inp : List Nat)
    (hreg : ∀ i, vm.registers i ≤ 32767)
    (hmem : ∀ a w, vm.mem a = some w → w ≤ 32767)
    (hstk : ∀ w ∈ vm.stack, w ≤ 32767)
    (hop : operands_valid op)
    (vm1 : VM) (inp1 out1 : List Nat)
    (h : execute_arm vm op inp = .ok (vm1, inp1, out1)) :
    ∀ i, vm1.registers i ≤ 32767 := by
  cases op with
  | halt =>
    simp only [execute_arm] at h
    cases h
    exact hreg
  | set a b =>
    simp only [execute_arm] at h
    cases hcase : register_idx a with
    | none => rw [hcase] at h; cases h
    | some r =>
      rw [hcase] at h
      cases h
      intro i
      by_cases hi : i = r
      · simpa [hi] using get_value_le vm b hreg hop.2
      · simpa [hi] using hreg i
  | push a =>
    simp only [execute_arm] at h
    cases h
    exact hreg
  | pop a =>
    simp only [execute_arm] at h
    cases hs : vm.stack with
    | nil => rw [hs] at h; cases h
    | cons v rest =>
      rw [hs] at h
      dsimp only at h
      cases hsr : VM.set_register { vm with stack := rest } a v with
      | error e => rw [hsr] at h; cases h
      | ok vmr =>
        rw [hsr] at h
        cases h
        exact set_register_range { vm with stack := rest } a v _ hreg (hstk v (by rw [hs]; exact List.mem_cons_self v rest)) hsr
  | eq a b c =>
    simp only [execute_arm] at h
    cases hsr : vm.set_register a (if vm.get_value b = vm.get_value c then 1 else 0) with
    | error e => rw [hsr] at h; cases h
    | ok vmr =>
      rw [hsr] at h
      cases h
      exact set_register_range vm a _ _ hreg (by split <;> omega) hsr
  | gt a b c =>
    simp only [execute_arm] at h
    cases hsr : vm.set_register a (if vm.get_value b > vm.get_value c then 1 else 0) with
    | error e => rw [hsr] at h; cases h
    | ok vmr =>
      rw [hsr] at h
      cases h
      exact set_register_range vm a _ _ hreg (by split <;> omega) hsr
  | jmp a =>
    simp only [execute_arm] at h
    cases h
    exact hreg
  | jt a b =>
    simp only [execute_arm] at h
    split at h <;> (cases h; exact hreg)
  | jf a b =>
    simp only [execute_arm] at h
    split at h <;> (cases h; exact hreg)
  | add a b c =>
    simp only [execute_arm] at h
    cases hsr : vm.set_register a ((vm.get_value b + vm.get_value c) % 65536 % 32768) with
    | error e => rw [hsr] at h; cases h
    | ok vmr =>
      rw [hsr] at h
      cases h
      refine set_register_range vm a _ _ hreg ?_ hsr
      have := Nat.mod_lt ((vm.get_value b + vm.get_value c) % 65536) (show 0 < 32768 by norm_num)
      omega
  | mult a b c =>
    simp only [execute_arm] at h
    cases hsr : vm.set_register a (vm.get_value b * vm.get_value c % 32768) with
    | error e => rw [hsr] at h; cases h
    | ok vmr =>
      rw [hsr] at h
      cases h
      refine set_register_range vm a _ _ hreg ?_ hsr
      have := Nat.mod_lt (vm.get_value b * vm.get_value c) (show 0 < 32768 by norm_num)
      omega
  | mod a b c =>
    simp only [execute_arm] at h
    split at h
    · cases h
    · cases hsr : vm.set_register a (vm.get_value b % vm.get_value c) with
      | error e => rw [hsr] at h; cases h
      | ok vmr =>
        rw [hsr] at h
        cases h
        refine set_register_range vm a _ _ hreg ?_ hsr
        have h1 := Nat.mod_le (vm.get_value b) (vm.get_value c)
        have h2 := get_value_le vm b hreg hop.2.1
        omega
  | and a b c =>
    simp only [execute_arm] at h
    cases hsr : vm.set_register a (vm.get_value b &&& vm.get_value c) with
    | error e => rw [hsr] at h; cases h
    | ok vmr =>
      rw [hsr] at h
      cases h
      refine set_register_range vm a _ _ hreg ?_ hsr
      have h1 : vm.get_value b &&& vm.get_value c ≤ vm.get_value b := Nat.and_le_left
      have h2 := get_value_le vm b hreg hop.2.1
      omega
  | or a b c =>
    simp only [execute_arm] at h
    cases hsr : vm.set_register a (vm.get_value b ||| vm.get_value c) with
    | error e => rw [hsr] at h; cases h
    | ok vmr =>
      rw [hsr] at h
      cases h
      refine set_register_range vm a _ _ hreg ?_ hsr
      have h1 := get_value_le vm b hreg hop.2.1
      have h2 := get_value_le vm c hreg hop.2.2
      have : vm.get_value b ||| vm.get_value c < 2 ^ 15 :=
        Nat.bitwise_lt (by omega) (by omega)
      omega
  | not a b =>
    simp only [execute_arm] at h
    cases hsr : vm.set_register a ((vm.get_value b ^^^ 65535) &&& 32767) with
    | error e => rw [hsr] at h; cases h
    | ok vmr =>
      rw [hsr] at h
      cases h
      refine set_register_range vm a _ _ hreg ?_ hsr
      have : (vm.get_value b ^^^ 65535) &&& 32767 ≤ 32767 := Nat.and_le_right
      omega
  | rmem a b =>
    simp only [execute_arm] at h
    cases hm : vm.mem (vm.get_value b) with
    | none => rw [hm] at h; cases h
    | some w =>
      rw [hm] at h
      dsimp only at h
      cases hsr : vm.set_register a w with
      | error e => rw [hsr] at h; cases h
      | ok vmr =>
        rw [hsr] at h
        cases h
        exact set_register_range vm a w _ hreg (hmem _ w hm) hsr
  | wmem a b =>
    simp only [execute_arm] at h
    cases h
    exact hreg
  | call a =>
    simp only [execute_arm] at h
    cases h
    exact hreg
  | ret =>
    simp only [execute_arm] at h
    cases hs : vm.stack with
    | nil => rw [hs] at h; cases h; exact hreg
    | cons v rest => rw [hs] at h; cases h; exact hreg
  | out a =>
    simp only [execute_arm] at h
    split at h
    · cases h; exact hreg
    · cases h
  | inp a =>
    simp only [execute_arm] at h
    cases inp with
    | nil => cases h
    | cons b rest =>
      dsimp only at h
      cases hsr : vm.set_register a (b % 256) with
      | error e => rw [hsr] at h; cases h
      | ok vmr =>
        rw [hsr] at h
        cases h
        refine set_register_range vm a _ _ hreg ?_ hsr
        have := Nat.mod_lt b (show 0 < 256 by norm_num)
        omega
  | noop =>
    simp only [execute_arm] at h
    cases h
    exact hreg

/-- C3 (amended): the code does not itself mask stored register values, so the
15-bit register invariant is conditional: whenever the current registers,
memory values and stack entries are all ≤ 32767 and the operation's raw
operand words are all in the valid range 0..32775, every operation that
completes without aborting leaves all register contents ≤ 32767. In
particular `set`, `pop`, `rmem` and `in` store a 15-bit value under these
conditions — but not for programs containing raw operand words ≥ 32776. -/
theorem registers_range_preserved (vm : VM) (op : Operation) (inp : List Nat)
    (hreg : ∀ i, vm.registers i ≤ 32767)
    (hmem : ∀ a w, vm.mem a = some w → w ≤ 32767)
    (hstk : ∀ w ∈ vm.stack, w ≤ 32767)
    (hop : operands_valid op)
    (vm' : VM) (inp' outp : List Nat)
    (h : execute_operation vm op inp = .ok (vm', inp', outp)) :
    ∀ i, vm'.registers i ≤ 32767 := by
  unfold execute_operation at h
  cases harm : execute_arm vm op inp with
  | error e => rw [harm] at h; cases h
  | ok res =>
    rw [harm] at h
    obtain ⟨vm1, inp1, out1⟩ := res
    cases h
    rw [advance_registers]
    exact execute_arm_registers_range vm op inp hreg hmem hstk hop _ _ _ harm

/-- Witness for C3: executing `set r0, 5` from the initial state (all sides of
the invariant hold) leaves register 0 at 5 ≤ 32767. -/
theorem registers_range_preserved_witness :
    ({ VM.default with
        registers := fun j => if j = 0 then 5 else VM.default.registers j
        instruction_ptr := 3 } : VM).registers 0 ≤ 32767 :=
  registers_range_preserved VM.default (.set 32768 5) []
    (fun _ => by show (0 : Nat) ≤ 32767; norm_num)
    (fun _ w hw => by exact absurd hw (by simp [VM.default]))
    (fun w hw => by exact absurd hw (by simp [VM.default]))
    (by constructor <;> norm_num)
    _ [] [] rfl 0

/-! ## C4: empty-stack `pop` vs empty-stack `ret` -/

/-- C4: on an empty stack, `pop` hits the
`expect("Stack should be non-empty for pop operation.")` and aborts, while
`ret` takes the `None` branch, sets the halted flag and terminates normally;
the two terminal outcomes are distinct values. -/
theorem pop_empty_aborts_ret_empty_halts (vm : VM) (a : Nat) (inp : List Nat)
    (h : vm.stack = []) :
    execute_operation vm (.pop a) inp = .error .stackUnderflow ∧
    execute_operation vm .ret inp = .ok ({ vm with halted := true }, inp, []) ∧
    ({ vm with halted := true } : VM).halted = true ∧
    execute_operation vm (.pop a) inp ≠ execute_operation vm .ret inp := by
  have hpop : execute_operation vm (.pop a) inp = .error .stackUnderflow := by
    simp only [execute_operation, execute_arm, h]
  have hret : execute_operation vm .ret inp = .ok ({ vm with halted := true }, inp, []) := by
    simp only [execute_operation, execute_arm, h]
    rfl
  refine ⟨hpop, hret, rfl, ?_⟩
  rw [hpop, hret]
  intro hc
  cases hc

/-- Witness for C4: concrete empty-stack machine. -/
theorem pop_empty_aborts_ret_empty_halts_witness :
    execute_operation VM.default (.pop 32768) [] = .error .stackUnderflow ∧
    execute_operation VM.default .ret [] = .ok ({ VM.default with halted := true }, [], []) ∧
    ({ VM.default with halted := true } : VM).halted = true ∧
    execute_operation VM.default (.pop 32768) [] ≠ execute_operation VM.default .ret [] :=
  pop_empty_aborts_ret_empty_halts VM.default 32768 [] rfl

/-! ## C5: `add` and `mult` commutativity, range, boundary values -/

/-- C5: for literal operands a, b ≤ 32767, `add` and `mult` are commutative in
their two value operands, the stored result is `(a+b) % 32768` respectively
`a*b % 32768` (always ≤ 32767). In the embedding the product is computed in
`Nat`, mirroring the `u32` widening in the code (32767² < 2³²,
so the widened multiply cannot overflow). -/
theorem add_mult_comm_and_range (vm : VM) (inp : List Nat) (a b d : Nat)
    (ha : a ≤ 32767) (hb : b ≤ 32767) :
    execute_operation vm (.add d a b) inp = execute_operation vm (.add d b a) inp ∧
    execute_operation vm (.mult d a b) inp = execute_operation vm (.mult d b a) inp ∧
    ∀ r, register_idx d = some r →
      execute_operation vm (.add d a b) inp =
        .ok ({ vm with
                registers := fun j => if j = r then (a + b) % 32768 else vm.registers j
                instruction_ptr := (vm.instruction_ptr + 4) % 65536 }, inp, []) ∧
      execute_operation vm (.mult d a b) inp =
        .ok ({ vm with
                registers := fun j => if j = r then a * b % 32768 else vm.registers j
                instruction_ptr := (vm.instruction_ptr + 4) % 65536 }, inp, []) ∧
      (a + b) % 32768 ≤ 32767 ∧ a * b % 32768 ≤ 32767 := by
  have hga : vm.get_value a = a := get_value_literal vm a (by omega)
  have hgb : vm.get_value b = b := get_value_literal vm b (by omega)
  refine ⟨?_, ?_, ?_⟩
  · simp only [execute_operation, execute_arm, hga, hgb, Nat.add_comm a b]
    cases vm.set_register d ((b + a) % 65536 % 32768) <;> rfl
  · simp only [execute_operation, execute_arm, hga, hgb, Nat.mul_comm a b]
    cases vm.set_register d (b * a % 32768) <;> rfl
  · intro r hr
    have hmod : (a + b) % 65536 = a + b := Nat.mod_eq_of_lt (by omega)
    refine ⟨?_, ?_, ?_, ?_⟩
    · simp only [execute_operation, execute_arm, VM.set_register, hga, hgb, hr, hmod]
      rfl
    · simp only [execute_operation, execute_arm, VM.set_register, hga, hgb, hr]
      rfl
    · have := Nat.mod_lt (a + b) (show 0 < 32768 by norm_num)
      omega
    · have := Nat.mod_lt (a * b) (show 0 < 32768 by norm_num)
      omega

/-- Witness for C5, at the spec's boundary values: `add r0, 32767, 1` stores 0
and `mult r0, 200, 200` stores 7232 = 40000 mod 32768. -/
theorem add_mult_comm_and_range_witness :
    execute_operation VM.default (.add 32768 32767 1) [] =
      .ok ({ VM.default with
              registers := fun j => if j = 0 then 0 else VM.default.registers j
              instruction_ptr := 4 }, [], []) ∧
    execute_operation VM.default (.mult 32768 200 200) [] =
      .ok ({ VM.default with
              registers := fun j => if j = 0 then 7232 else VM.default.registers j
              instruction_ptr := 4 }, [], []) := by
  constructor
  · exact (((add_mult_comm_and_range VM.default [] 32767 1 32768
      (by norm_num) (by norm_num)).2.2) 0 rfl).1
  · exact (((add_mult_comm_and_range VM.default [] 200 200 32768
      (by norm_num) (by norm_num)).2.2) 0 rfl).2.1

/-! ## C6: double 15-bit complement -/

/-- C6: for a literal a ≤ 32767, executing `not r0, a` stores the 15-bit
complement `(a XOR 0xffff) AND 0x7fff`, and executing `not r0, r0` on the
result restores a; double complement is the identity on 0..32767. -/
theorem not_double_complement (vm : VM) (inp : List Nat) (a : Nat) (ha : a ≤ 32767) :
    ∃ vm1 vm2 : VM,
      execute_operation vm (.not 32768 a) inp = .ok (vm1, inp, []) ∧
      vm1.registers 0 = (a ^^^ 65535) &&& 32767 ∧
      execute_operation vm1 (.not 32768 32768) inp = .ok (vm2, inp, []) ∧
      vm2.registers 0 = a := by
  have hga : vm.get_value a = a := get_value_literal vm a (by omega)
  have h1 : execute_operation vm (.not 32768 a) inp =
      .ok ({ vm with
              registers := fun j => if j = 0 then (a ^^^ 65535) &&& 32767 else vm.registers j
              instruction_ptr := (vm.instruction_ptr + 3) % 65536 }, inp, []) := by
    simp only [execute_operation, execute_arm, VM.set_register, hga]
    rfl
  refine ⟨_, _, h1, by simp, rfl, ?_⟩
  show ((((a ^^^ 65535) &&& 32767) ^^^ 65535) &&& 32767) = a
  exact not15_invol a (by omega)

/-- Witness for C6 at the spec's example a = 0: the first `not` stores 32767,
the second stores 0 again. -/
theorem not_double_complement_witness :
    ∃ vm1 vm2 : VM,
      execute_operation VM.default (.not 32768 0) [] = .ok (vm1, [], []) ∧
      vm1.registers 0 = 32767 ∧
      execute_operation vm1 (.not 32768 32768) [] = .ok (vm2, [], []) ∧
      vm2.registers 0 = 0 := by
  obtain ⟨vm1, vm2, he1, hr1, he2, hr2⟩ := not_double_complement VM.default [] 0 (by norm_num)
  refine ⟨vm1, vm2, he1, ?_, he2, hr2⟩
  rw [hr1]
  decide

/-! ## C7: `call` / `ret` pairing -/

/-- C7: `call a` at instruction pointer p pushes p+2 (as long as p+2 fits in a
u16) and jumps to the resolved value of a; a `ret` executed in any state whose
stack has that pushed word on top pops it and sets the instruction pointer to
exactly p+2. -/
theorem call_then_ret_returns (vm t : VM) (inp inpt : List Nat) (a : Nat) (rest : List Nat)
    (hip : vm.instruction_ptr + 2 < 65536)
    (ht : t.stack = (vm.instruction_ptr + 2) :: rest) :
    execute_operation vm (.call a) inp =
      .ok ({ vm with
              stack := (vm.instruction_ptr + 2) :: vm.stack
              instruction_ptr := vm.get_value a }, inp, []) ∧
    execute_operation t .ret inpt =
      .ok ({ t with stack := rest, instruction_ptr := vm.instruction_ptr + 2 }, inpt, []) := by
  have hmod : (vm.instruction_ptr + 2) % 65536 = vm.instruction_ptr + 2 := Nat.mod_eq_of_lt hip
  constructor
  · simp only [execute_operation, execute_arm, hmod]
    rfl
  · simp only [execute_operation, execute_arm, ht]
    rfl

/-- Witness for C7: `call 500` at instruction pointer 10 pushes 12 and jumps
to 500; `ret` with 12 on top of the stack returns to instruction pointer 12. -/
theorem call_then_ret_returns_witness :
    execute_operation { VM.default with instruction_ptr := 10 } (.call 500) [] =
      .ok ({ VM.default with instruction_ptr := 500, stack := [12] }, [], []) ∧
    execute_operation { VM.default with stack := [12] } .ret [] =
      .ok ({ VM.default with stack := [], instruction_ptr := 12 }, [], []) :=
  call_then_ret_returns { VM.default with instruction_ptr := 10 }
    { VM.default with stack := [12] } [] [] 500 [] (by norm_num) rfl

/-! ## C8: decoder determinism / purity -/

theorem read_args_congr (s t : VM) (hip : s.instruction_ptr = t.instruction_ptr)
    (hmem : s.mem = t.mem) : ∀ count i, read_args s i count = read_args t i count := by
  intro count
  induction count with
  | zero => intro i; rfl
  | succ k ih =>
    intro i
    simp only [read_args, hip, hmem, ih]

/-- C8: the decoder is pure with respect to the machine state: it is a function
of the instruction pointer and the memory mapping only (it takes `&self` in
the code and mutates nothing), so any two states agreeing on those two fields
decode to identical results. -/
theorem parse_next_operation_deterministic (s t : VM)
    (hip : s.instruction_ptr = t.instruction_ptr) (hmem : s.mem = t.mem) :
    parse_next_operation s = parse_next_operation t := by
  unfold parse_next_operation
  rw [hip, hmem]
  simp only [read_args_congr s t hip hmem]

/-- Witness for C8: two states with the same instruction pointer and memory but
different registers, stack and halted flag decode identically. -/
theorem parse_next_operation_deterministic_witness :
    parse_next_operation { VM.default with mem := noop_mem } =
      parse_next_operation { VM.default with
                              mem := noop_mem
                              registers := fun _ => 9
                              stack := [5]
                              halted := true } :=
  parse_next_operation_deterministic _ _ rfl rfl

/-! ## C9: only `wmem` writes memory -/

theorem set_register_mem (vm : VM) (a v : Nat) (vm' : VM)
    (h : vm.set_register a v = .ok vm') : vm'.mem = vm.mem := by
  unfold VM.set_register at h
  cases hc : register_idx a with
  | none => rw [hc] at h; cases h
  | some r => rw [hc] at h; cases h; rfl

/-- C9: for every operation other than `wmem`, a successful execution leaves
the entire memory mapping unchanged — registers, stack, instruction pointer
and halted flag may change, but no memory word does. -/
theorem non_wmem_preserves_mem (vm : VM) (op : Operation) (inp : List Nat)
    (hop : ∀ a b, op ≠ .wmem a b)
    (vm' : VM) (inp' outp : List Nat)
    (h : execute_operation vm op inp = .ok (vm', inp', outp)) :
    vm'.mem = vm.mem := by
  unfold execute_operation at h
  cases harm : execute_arm vm op inp with
  | error e => rw [harm] at h; cases h
  | ok res =>
    rw [harm] at h
    obtain ⟨vm1, inp1, out1⟩ := res
    cases h
    rw [advance_mem]
    cases op with
    | halt => simp only [execute_arm] at harm; cases harm; rfl
    | set a b =>
      simp only [execute_arm] at harm
      cases hc : register_idx a with
      | none => rw [hc] at harm; cases harm
      | some r => rw [hc] at harm; cases harm; rfl
    | push a => simp only [execute_arm] at harm; cases harm; rfl
    | pop a =>
      simp only [execute_arm] at harm
      cases hs : vm.stack with
      | nil => rw [hs] at harm; cases harm
      | cons v rest =>
        rw [hs] at harm
        dsimp only at harm
        cases hsr : VM.set_register { vm with stack := rest } a v with
        | error e => rw [hsr] at harm; cases harm
        | ok vmr =>
          rw [hsr] at harm
          cases harm
          exact set_register_mem { vm with stack := rest } a v _ hsr
    | eq a b c =>
      simp only [execute_arm] at harm
      cases hsr : vm.set_register a (if vm.get_value b = vm.get_value c then 1 else 0) with
      | error e => rw [hsr] at harm; cases harm
      | ok vmr => rw [hsr] at harm; cases harm; exact set_register_mem vm a _ _ hsr
    | gt a b c =>
      simp only [execute_arm] at harm
      cases hsr : vm.set_register a (if vm.get_value b > vm.get_value c then 1 else 0) with
      | error e => rw [hsr] at harm; cases harm
      | ok vmr => rw [hsr] at harm; cases harm; exact set_register_mem vm a _ _ hsr
    | jmp a => simp only [execute_arm] at harm; cases harm; rfl
    | jt a b =>
      simp only [execute_arm] at harm
      split at harm <;> (cases harm; rfl)
    | jf a b =>
      simp only [execute_arm] at harm
      split at harm <;> (cases harm; rfl)
    | add a b c =>
      simp only [execute_arm] at harm
      cases hsr : vm.set_register a ((vm.get_value b + vm.get_value c) % 65536 % 32768) with
      | error e => rw [hsr] at harm; cases harm
      | ok vmr => rw [hsr] at harm; cases harm; exact set_register_mem vm a _ _ hsr
    | mult a b c =>
      simp only [execute_arm] at harm
      cases hsr : vm.set_register a (vm.get_value b * vm.get_value c % 32768) with
      | error e => rw [hsr] at harm; cases harm
      | ok vmr => rw [hsr] at harm; cases harm; exact set_register_mem vm a _ _ hsr
    | mod a b c =>
      simp only [execute_arm] at harm
      split at harm
      · cases harm
      · cases hsr : vm.set_register a (vm.get_value b % vm.get_value c) with
        | error e => rw [hsr] at harm; cases harm
        | ok vmr => rw [hsr] at harm; cases harm; exact set_register_mem vm a _ _ hsr
    | and a b c =>
      simp only [execute_arm] at harm
      cases hsr : vm.set_register a (vm.get_value b &&& vm.get_value c) with
      | error e => rw [hsr] at harm; cases harm
      | ok vmr => rw [hsr] at harm; cases harm; exact set_register_mem vm a _ _ hsr
    | or a b c =>
      simp only [execute_arm] at harm
      cases hsr : vm.set_register a (vm.get_value b ||| vm.get_value c) with
      | error e => rw [hsr] at harm; cases harm
      | ok vmr => rw [hsr] at harm; cases harm; exact set_register_mem vm a _ _ hsr
    | not a b =>
      simp only [execute_arm] at harm
      cases hsr : vm.set_register a ((vm.get_value b ^^^ 65535) &&& 32767) with
      | error e => rw [hsr] at harm; cases harm
      | ok vmr => rw [hsr] at harm; cases harm; exact set_register_mem vm a _ _ hsr
    | rmem a b =>
      simp only [execute_arm] at harm
      cases hm : vm.mem (vm.get_value b) with
      | none => rw [hm] at harm; cases harm
      | some w =>
        rw [hm] at harm
        dsimp only at harm
        cases hsr : vm.set_register a w with
        | error e => rw [hsr] at harm; cases harm
        | ok vmr => rw [hsr] at harm; cases harm; exact set_register_mem vm a w _ hsr
    | wmem a b => exact absurd rfl (hop a b)
    | call a => simp only [execute_arm] at harm; cases harm; rfl
    | ret =>
      simp only [execute_arm] at harm
      cases hs : vm.stack with
      | nil => rw [hs] at harm; cases harm; rfl
      | cons v rest => rw [hs] at harm; cases harm; rfl
    | out a =>
      simp only [execute_arm] at harm
      split at harm
      · cases harm; rfl
      · cases harm
    | inp a =>
      simp only [execute_arm] at harm
      cases inp with
      | nil => cases harm
      | cons b rest =>
        dsimp only at harm
        cases hsr : vm.set_register a (b % 256) with
        | error e => rw [hsr] at harm; cases harm
        | ok vmr => rw [hsr] at harm; cases harm; exact set_register_mem vm a _ _ hsr
    | noop => simp only [execute_arm] at harm; cases harm; rfl

/-- Witness for C9: a successful `push 7` leaves the memory of the initial
state untouched. -/
theorem non_wmem_preserves_mem_witness :
    ({ VM.default with stack := [7], instruction_ptr := 2 } : VM).mem = VM.default.mem :=
  non_wmem_preserves_mem VM.default (.push 7) [] (fun a b hab => by cases hab)
    { VM.default with stack := [7], instruction_ptr := 2 } [] [] rfl

/-! ## C10: memory is a partial map, unmapped lookups abort -/

/-- C10: memory is a partial map (`HashMap`), not a zero-initialized array:
fetching an instruction at an unmapped address makes the decoder abort at its
`mem.get(..).unwrap()`, and `rmem` from an unmapped source address aborts the
same way — neither reads the missing word as 0. -/
theorem unmapped_memory_aborts (vm : VM) (inp : List Nat) (d b : Nat)
    (hdec : vm.mem vm.instruction_ptr = none)
    (hrm : vm.mem (vm.get_value b) = none) :
    parse_next_operation vm = .error .missingMemory ∧
    execute_operation vm (.rmem d b) inp = .error .missingMemory := by
  constructor
  · unfold parse_next_operation
    rw [hdec]
  · simp only [execute_operation, execute_arm]
    rw [hrm]

/-- Witness for C10: in the initial state (empty memory map) both decoding at
instruction pointer 0 and `rmem r0, 100` abort. -/
theorem unmapped_memory_aborts_witness :
    parse_next_operation VM.default = .error .missingMemory ∧
    execute_operation VM.default (.rmem 32768 100) [] = .error .missingMemory :=
  unmapped_memory_aborts VM.default [] 32768 100 rfl rfl
